import Mathlib

/-!
Verification model of the pysteon PLM core.

The definitions below are a shallow embedding of the Python sources
(`pysteon/messaging.py`, `pysteon/objects.py`, `pysteon/units.py`,
`pysteon/plm.py`).  Bytes are modelled as `Nat`, byte buffers as `List Nat`,
Python floats as exact rationals with Python's round-half-to-even rounding
(the concrete values manipulated by the unit-conversion functions are far
enough from the discontinuities of rounding for the exact-rational model to
agree with IEEE-754 double evaluation, and the exact ties that do occur are
produced exactly by double evaluation as well), and fallible code as
`Except`-valued functions.
-/

namespace Pysteon

/-- `messaging.MESSAGE_START_BYTE`. -/
def MESSAGE_START_BYTE : Nat := 0x02

/-- The values of the `messaging.CommandCode` enumeration. -/
def commandCodeValues : List Nat :=
  [0x50, 0x51, 0x52, 0x53, 0x54, 0x55, 0x56, 0x57, 0x58,
   0x60, 0x61, 0x62, 0x63, 0x64, 0x65, 0x66, 0x67, 0x68, 0x69, 0x6a,
   0x6b, 0x6c, 0x6d, 0x6e, 0x6f, 0x70, 0x71, 0x72, 0x73]

/-- `CommandCode(value)` succeeds exactly when `value` is a member of the
enumeration. -/
def isCommandCode (value : Nat) : Bool :=
  commandCodeValues.contains value

/-- The `messaging.BODY_SIZES` dictionary: `bodySize c` is
`BODY_SIZES.get(c)`, and `none` models the `KeyError` raised by
`BODY_SIZES[c]` on a missing key. -/
def bodySize : Nat → Option Nat
  | 0x50 => some 9
  | 0x51 => some 23
  | 0x52 => some 2
  | 0x53 => some 8
  | 0x54 => some 1
  | 0x55 => some 0
  | 0x56 => some 5
  | 0x57 => some 8
  | 0x58 => some 1
  | 0x60 => some 7
  | 0x69 => some 1
  | 0x6a => some 1
  | _ => none

/-- `messaging.IncomingMessage` (the `command_code`/`body` payload that
equality compares). -/
structure IncomingMessage where
  command_code : Nat
  body : List Nat
deriving DecidableEq, Repr

/-- `messaging._discard_until_message_start`: drop bytes until the first
`0x02` (or the end of the buffer). -/
def discard_until_message_start (buffer : List Nat) : List Nat :=
  buffer.dropWhile (fun c => c != MESSAGE_START_BYTE)

/-- `messaging._extract_body buffer size`: returns
`(body?, new buffer, expected)`. -/
def extract_body (buffer : List Nat) (size : Nat) :
    Option (List Nat) × List Nat × Nat :=
  if buffer.length < size + 2 then
    (none, buffer, size + 2 - buffer.length)
  else
    (some ((buffer.drop 2).take size), buffer.drop (size + 2), 0)

/-- `messaging.parse_message`.  The mutable `buffer` argument is modelled by
returning the new buffer; the `KeyError` raised by `BODY_SIZES[command_code]`
when the recognized code has no tabled size is modelled by `Except.error`
carrying the offending command code.  On success the result is
`(message?, new buffer, expected)`. -/
def parse_message (buffer : List Nat) :
    Except Nat (Option IncomingMessage × List Nat × Nat) :=
  match discard_until_message_start buffer with
  | [] => .ok (none, [], 2)
  | [b0] => .ok (none, [b0], 1)
  | b0 :: b1 :: rest =>
    if isCommandCode b1 then
      match bodySize b1 with
      | none => .error b1
      | some size =>
        match extract_body (b0 :: b1 :: rest) size with
        | (none, buf, expected) => .ok (none, buf, expected)
        | (some body, buf, _) =>
          .ok (some ⟨b1, body⟩, buf, max (2 - buf.length) 1)
    else
      -- `buffer[:2] = []` : unrecognized command code, drop the two bytes.
      .ok (none, rest, 2)

theorem length_discard_le (buffer : List Nat) :
    (discard_until_message_start buffer).length ≤ buffer.length :=
  (List.dropWhile_sublist _).length_le

theorem extract_body_some {l : List Nat} {size : Nat} {b buf : List Nat}
    {e : Nat} (h : extract_body l size = (some b, buf, e)) :
    b = (l.drop 2).take size ∧ buf = l.drop (size + 2) ∧ size + 2 ≤ l.length := by
  unfold extract_body at h
  split at h
  · simp at h
  · simp only [Prod.mk.injEq, Option.some.injEq] at h
    exact ⟨h.1.symm, h.2.1.symm, by omega⟩

theorem extract_body_none {l : List Nat} {size : Nat} {buf : List Nat}
    {e : Nat} (h : extract_body l size = (none, buf, e)) :
    buf = l ∧ e = size + 2 - l.length ∧ l.length < size + 2 := by
  unfold extract_body at h
  split at h
  · simp only [Prod.mk.injEq] at h
    exact ⟨h.2.1.symm, h.2.2.symm, by omega⟩
  · simp at h

/-- A successful `parse_message` consumes at least two bytes from the
buffer. -/
theorem parse_message_shrinks {buffer buf : List Nat}
    {m : IncomingMessage} {e : Nat}
    (h : parse_message buffer = .ok (some m, buf, e)) :
    buf.length < buffer.length := by
  unfold parse_message at h
  rcases hd : discard_until_message_start buffer with _ | ⟨b0, _ | ⟨b1, rest⟩⟩ <;>
    rw [hd] at h
  · simp at h
  · simp at h
  · have hlen : (b0 :: b1 :: rest).length ≤ buffer.length := by
      rw [← hd]; exact length_discard_le buffer
    rcases hcc : isCommandCode b1
    · simp [hcc] at h
    · simp only [hcc, if_true] at h
      rcases hbs : bodySize b1 with _ | size <;> rw [hbs] at h <;> dsimp only at h
      · simp at h
      · rcases hex : extract_body (b0 :: b1 :: rest) size with ⟨_ | body, buf2, exp⟩ <;>
          rw [hex] at h <;> dsimp only at h
        · simp at h
        · simp only [Except.ok.injEq, Prod.mk.injEq, Option.some.injEq] at h
          obtain ⟨-, hbuf, -⟩ := h
          obtain ⟨-, hbuf2, hsz⟩ := extract_body_some hex
          subst hbuf
          rw [hbuf2]
          simp only [List.length_drop, List.length_cons] at *
          omega

/-- The loop of `messaging.parse_messages`, with an explicit recursion
bound.  Each extracted message consumes at least two buffer bytes
(`parse_message_shrinks`), so any bound exceeding the buffer length is
inert; `parse_messages_fuel_congr` makes this precise and justifies the
bound chosen in `parse_messages`. -/
def parse_messages_fuel :
    Nat → List Nat → Except Nat (List IncomingMessage × List Nat × Nat)
  | 0, buffer => .ok ([], buffer, 0)
  | fuel + 1, buffer =>
    match parse_message buffer with
    | .error c => .error c
    | .ok (none, buf, expected) => .ok ([], buf, expected)
    | .ok (some m, buf, _) =>
      match parse_messages_fuel fuel buf with
      | .error c => .error c
      | .ok (ms, buf2, expected) => .ok (m :: ms, buf2, expected)

/-- The recursion bound of `parse_messages_fuel` is inert as long as it
exceeds the buffer length: the loop always stops by itself first. -/
theorem parse_messages_fuel_congr :
    ∀ (fuel fuel' : Nat) (buffer : List Nat),
      buffer.length < fuel → buffer.length < fuel' →
      parse_messages_fuel fuel buffer = parse_messages_fuel fuel' buffer := by
  intro fuel
  induction fuel with
  | zero => intro fuel' buffer h h'; omega
  | succ fuel ih =>
    intro fuel' buffer h h'
    cases fuel' with
    | zero => omega
    | succ fuel' =>
      simp only [parse_messages_fuel]
      rcases hpm : parse_message buffer with c | ⟨_ | m, buf, e⟩
      · rfl
      · rfl
      · have hlt := parse_message_shrinks hpm
        dsimp only
        rw [ih fuel' buf (by omega) (by omega)]

/-- `messaging.parse_messages`: repeatedly parse messages until no complete
message remains; a `KeyError` from `parse_message` propagates.  The Python
loop has no explicit bound; `buffer.length + 1` steps always suffice by
`parse_message_shrinks`, and by `parse_messages_fuel_congr` the value does
not depend on the bound. -/
def parse_messages (buffer : List Nat) :
    Except Nat (List IncomingMessage × List Nat × Nat) :=
  parse_messages_fuel (buffer.length + 1) buffer

/-- `messaging.format_message`: `0x02, command code, body`. -/
def format_message (commandCode : Nat) (body : List Nat) : List Nat :=
  MESSAGE_START_BYTE :: commandCode :: body

/-- `messaging.check_ack_or_nak` raises `CommandFailure` on a `0x15` epilogue
and `RuntimeError` on any other non-`0x06` value. -/
inductive AckCheck where
  | acked : AckCheck
  | commandFailure (command_code : Nat) : AckCheck
  | runtimeError (value : Nat) : AckCheck
deriving DecidableEq, Repr

/-- `messaging.check_ack_or_nak`: inspects `message.body[-1]`; `none` models
the `IndexError` on an empty body. -/
def check_ack_or_nak (message : IncomingMessage) : Option AckCheck :=
  message.body.getLast?.map fun value =>
    if value = 0x06 then .acked
    else if value = 0x15 then .commandFailure message.command_code
    else .runtimeError value

/-- `objects.AllLinkRole`: an enumeration whose Python values are
`responder = True` and `controller = False`. -/
inductive AllLinkRole where
  | controller : AllLinkRole
  | responder : AllLinkRole
deriving DecidableEq, Repr

/-- `objects.AllLinkRecord` (the named-tuple fields). -/
structure AllLinkRecord where
  role : AllLinkRole
  identity : List Nat
  group : Nat
  data : List Nat
deriving DecidableEq, Repr

/-- `objects.parse_all_link_record_response`: takes the 8-byte body of a
`0x57` frame (the source asserts `len(value) == 8`).  Note
`AllLinkRole(bool(value[0] & 0x40))` selects `responder` when bit 6 is set,
because the enumeration assigns `responder = True`. -/
def parse_all_link_record_response (value : List Nat) : AllLinkRecord :=
  { identity := (value.drop 2).take 3
    group := value.getD 1 0
    role := if value.getD 0 0 &&& 0x40 != 0 then .responder else .controller
    data := (value.drop 5).take 3 }

/-- `objects.InsteonMessageFlag`. -/
inductive InsteonMessageFlag where
  | extended : InsteonMessageFlag
  | ack : InsteonMessageFlag
  | all_link : InsteonMessageFlag
  | broadcast : InsteonMessageFlag
deriving DecidableEq, Repr

/-- The bit position of each `InsteonMessageFlag` member. -/
def InsteonMessageFlag.value : InsteonMessageFlag → Nat
  | .extended => 4
  | .ack => 5
  | .all_link => 6
  | .broadcast => 7

/-- `objects.InsteonMessage` (the named-tuple fields); the Python `flags` set
is modelled as a list queried by membership. -/
structure InsteonMessage where
  sender : List Nat
  target : List Nat
  hops_left : Nat
  max_hops : Nat
  flags : List InsteonMessageFlag
  command_bytes : List Nat
  user_data : List Nat

/-- The outbound flags byte: flag bits at positions 4..7, `hops_left` in bits
3..2, `max_hops` in bits 1..0 — the bit-exact inverse of the decoding in
`objects.InsteonMessage.from_message` (`max_hops = flags_byte & 0x03`,
`hops_left = (flags_byte & 0x0c) >> 2`, flag `f` set iff
`flags_byte & (1 << f.value) != 0`). -/
def insteonFlagsByte (m : InsteonMessage) : Nat :=
  (if m.flags.contains .extended then 2 ^ 4 else 0) +
    (if m.flags.contains .ack then 2 ^ 5 else 0) +
    (if m.flags.contains .all_link then 2 ^ 6 else 0) +
    (if m.flags.contains .broadcast then 2 ^ 7 else 0) +
    m.hops_left * 4 + m.max_hops

/-- Modelled from the spec: `InsteonMessage.to_message_body` is called by
`plm.PowerLineModem.send_standard_or_extended_message` but is absent from the
source tree.  Per spec §4.B the outbound flag encoding matches the inbound
layout bit-exactly (see `insteonFlagsByte`), and per spec §4.D/§6 the `0x62`
body is the 3-byte target, the flags byte, the 2 command bytes, plus the
14-byte `user_data` exactly when the extended flag is set. -/
def to_message_body (m : InsteonMessage) : List Nat :=
  m.target ++ [insteonFlagsByte m] ++ m.command_bytes ++
    (if m.flags.contains .extended then m.user_data else [])

/-- Python `round` (round-half-to-even) on an exact rational, computed from
the numerator and denominator: `f` is `⌊q⌋` (`Int.fdiv` is floor division
and `q.den` is positive) and `r2` compares twice the fractional part
against 1. -/
def pyround (q : ℚ) : ℤ :=
  let f := q.num.fdiv q.den
  let r2 := 2 * (q.num - f * q.den)
  if r2 < (q.den : ℤ) then f
  else if (q.den : ℤ) < r2 then f + 1
  else if f % 2 = 0 then f else f + 1

/-- The exact rational `v * a / b`, built with `mkRat` so that it reduces by
computation (  the `Rat` field operations are irreducible); `ratScale_eq`
proves the agreement. -/
def ratScale (v : ℚ) (a : ℤ) (b : ℕ) : ℚ :=
  mkRat (v.num * a) (v.den * b)

/-- `ratScale` agrees with the arithmetic expression it stands for. -/
theorem ratScale_eq (v : ℚ) (a : ℤ) (b : ℕ) :
    ratScale v a b = v * a / b := by
  rw [ratScale, Rat.mkRat_eq_div]
  push_cast
  rw [← div_mul_div_comm, Rat.num_div_den, mul_div_assoc]

/-- `units.on_level_from_percent`: clamp to `0..100`, then
`round((value / 100.0) * 0xff)` (the scaled value is
`ratScale _ 0xff 100`). -/
def on_level_from_percent (value : ℚ) : ℤ :=
  pyround (ratScale (min 100 (max 0 value)) 0xff 100)

/-- `units.on_level_to_percent`: clamp to `0..0xff`, then
`round((value / 0xff) * 100)` (the scaled value is `ratScale _ 100 0xff`). -/
def on_level_to_percent (value : ℚ) : ℤ :=
  pyround (ratScale (min 0xff (max 0 value)) 100 0xff)

/-- `units.RAMP_RATES`: 31 `(seconds, rate byte)` pairs, seconds ascending
(the float keys are exact rationals, written with `mkRat` to keep them
computable). -/
def RAMP_RATES : List (ℚ × ℚ) :=
  [(mkRat 1 10, 0x1F), (mkRat 2 10, 0x1E), (mkRat 3 10, 0x1D),
   (mkRat 5 10, 0x1C), (2, 0x1B), (mkRat 9 2, 0x1A), (mkRat 13 2, 0x19),
   (mkRat 17 2, 0x18), (19, 0x17), (mkRat 43 2, 0x16), (mkRat 47 2, 0x15),
   (26, 0x14), (28, 0x13), (30, 0x12), (32, 0x11), (34, 0x10),
   (mkRat 77 2, 0x0f), (43, 0x0e), (47, 0x0d), (60, 0x0c), (90, 0x0b),
   (120, 0x0a), (150, 0x09), (180, 0x08), (210, 0x07), (240, 0x06),
   (270, 0x05), (300, 0x04), (360, 0x03), (420, 0x02), (480, 0x01)]

/-- Python tuple comparison (lexicographic), used by `sorted` in
`units.project_onto` when `invert` is set. -/
def pairLe (a b : ℚ × ℚ) : Bool :=
  decide (a.1 < b.1 ∨ (a.1 = b.1 ∧ a.2 ≤ b.2))

/-- Stable insertion into a `pairLe`-sorted list. -/
def insertPair (a : ℚ × ℚ) : List (ℚ × ℚ) → List (ℚ × ℚ)
  | [] => [a]
  | b :: l => if pairLe a b then a :: b :: l else b :: insertPair a l

/-- Python `sorted` over 2-tuples, as a stable insertion sort with the
lexicographic comparison `pairLe`. -/
def sortPairs : List (ℚ × ℚ) → List (ℚ × ℚ)
  | [] => []
  | a :: l => insertPair a (sortPairs l)

/-- The scan of `units.project_onto`: walk the entries after the first one;
on the first key strictly greater than `value` return the previous entry's
second component, else the last entry's second component. -/
def project_scan (value : ℚ) : ℚ × ℚ → List (ℚ × ℚ) → ℚ
  | prev, [] => prev.2
  | prev, (x, y) :: rest =>
    if value < x then prev.2 else project_scan value (x, y) rest

/-- `units.project_onto`; `none` models the `IndexError` that `array[-1]`
raises on an empty array. -/
def project_onto (value : ℚ) (array : List (ℚ × ℚ)) (invert : Bool) :
    Option ℚ :=
  let array :=
    if invert then sortPairs (array.map (fun p => (p.2, p.1)))
    else array
  match array with
  | [] => none
  | a0 :: rest => some (project_scan value a0 rest)

/-- `units.ramp_rate_from_seconds`. -/
def ramp_rate_from_seconds (value : ℚ) : Option ℚ :=
  project_onto value RAMP_RATES false

/-- `units.ramp_rate_to_seconds`. -/
def ramp_rate_to_seconds (value : ℚ) : Option ℚ :=
  project_onto value RAMP_RATES true

/-- `plm.PowerLineModem._checksum`: keep `user_data[:-1]` and append
`((0xff ^ sum(command_bytes + user_data[:-1])) + 1) & 0xff`. -/
def checksum (command_bytes user_data : List Nat) : List Nat :=
  let s := (command_bytes ++ user_data.dropLast).sum
  user_data.dropLast ++ [((0xff ^^^ s) + 1) &&& 0xff]

/-- The `InsteonMessage` constructed by `plm.PowerLineModem.light_on`:
`hops_left=2, max_hops=3, flags=set()`, command bytes
`[0x11 or 0x12, on_level_from_percent(level)]`, empty user data. -/
def light_on_message (plm_identity identity : List Nat) (level : ℚ)
    (instant : Bool) : InsteonMessage :=
  { sender := plm_identity
    target := identity
    hops_left := 2
    max_hops := 3
    flags := []
    command_bytes := [if instant then 0x12 else 0x11,
                      (on_level_from_percent level).toNat]
    user_data := [] }

/-- The wire bytes emitted for `light_on`:
`format_message(0x62, message.to_message_body())`, as written by
`send_standard_or_extended_message` via `PowerLineModem.write`. -/
def light_on_wire_bytes (plm_identity identity : List Nat) (level : ℚ)
    (instant : Bool) : List Nat :=
  format_message 0x62 (to_message_body
    (light_on_message plm_identity identity level instant))

/-- The `InsteonMessage` constructed by
`plm.PowerLineModem.remote_enter_linking`: extended flag set and the
checksummed 14-byte zero payload as user data. -/
def remote_enter_linking_message (plm_identity identity : List Nat)
    (group : Nat) : InsteonMessage :=
  { sender := plm_identity
    target := identity
    hops_left := 2
    max_hops := 3
    flags := [.extended]
    command_bytes := [0x09, group]
    user_data := checksum [0x09, group] (List.replicate 14 0) }

/-- The `InsteonMessage` constructed by
`plm.PowerLineModem.remote_enter_unlinking`.  The source computes
`user_data = self._checksum(command_bytes, bytes(14))` and then passes
`flags=set(), user_data=b''` to the constructor, discarding the computed
payload; the message actually sent therefore has no extended flag and empty
user data. -/
def remote_enter_unlinking_message (plm_identity identity : List Nat)
    (group : Nat) : InsteonMessage :=
  { sender := plm_identity
    target := identity
    hops_left := 2
    max_hops := 3
    flags := []
    command_bytes := [0x0A, group]
    user_data := [] }

/-- The filter of the `read_one` callback registered by
`plm.PowerLineModem.read`: accept every message when `command_codes` is
`None`, else only messages whose command code is in the list. -/
def read_one_filter (command_codes : Option (List Nat))
    (message : IncomingMessage) : Bool :=
  match command_codes with
  | none => true
  | some codes => codes.contains message.command_code

/-- Model of `plm.PowerLineModem.write_read`: the subscriber queue receives,
in wire order, the parsed frames matching `read_one_filter`, and the loop
returns the first queue item that is not a `MessageFailure` instance.  The
parser produces only `IncomingMessage` values (no `MessageFailure` is ever
emitted on `on_message`; the name is not even defined in `messaging`), so the
retry branch is unreachable and the call returns the first matching frame of
the inbound stream. -/
def write_read_model (command_codes : Option (List Nat))
    (stream : List IncomingMessage) : Option IncomingMessage :=
  (stream.filter (read_one_filter command_codes)).head?

/-- The projection as the spec sentence describes `units.project_onto`: the
value associated with the first key strictly greater than the input, or the
last entry's value when no key exceeds the input (stated for comparison with
the implementation; see the C7 theorems). -/
def spec_project_onto (value : ℚ) (array : List (ℚ × ℚ)) : Option ℚ :=
  match array.find? (fun e => decide (value < e.1)) with
  | some e => some e.2
  | none => array.getLast?.map Prod.snd

/-- The projection `units.project_onto` actually computes on a sorted table:
the value of the last entry whose key is at most the input, or the first
entry's value when the input is below every key. -/
def floor_project_onto (value : ℚ) (array : List (ℚ × ℚ)) : Option ℚ :=
  match (array.filter (fun e => decide (e.1 ≤ value))).getLast? with
  | some e => some e.2
  | none => array.head?.map Prod.snd

/-!  Helper lemmas. -/

theorem parse_message_expected_pos {buffer : List Nat}
    {r : Option IncomingMessage × List Nat × Nat}
    (h : parse_message buffer = .ok r) : 1 ≤ r.2.2 := by
  unfold parse_message at h
  rcases hd : discard_until_message_start buffer with _ | ⟨b0, _ | ⟨b1, rest⟩⟩ <;>
    rw [hd] at h
  · cases h; simp
  · cases h; simp
  · rcases hcc : isCommandCode b1
    · simp only [hcc, Bool.false_eq_true, if_false] at h
      cases h; simp
    · simp only [hcc, if_true] at h
      rcases hbs : bodySize b1 with _ | size <;> rw [hbs] at h <;> dsimp only at h
      · simp at h
      · rcases hex : extract_body (b0 :: b1 :: rest) size with ⟨_ | body, buf2, exp⟩ <;>
          rw [hex] at h <;> dsimp only at h
        · cases h
          obtain ⟨-, he, hlt⟩ := extract_body_none hex
          simp only [List.length_cons] at *
          omega
        · cases h
          simp

theorem parse_message_error_untabled {buffer : List Nat} {c : Nat}
    (h : parse_message buffer = .error c) :
    isCommandCode c = true ∧ bodySize c = none := by
  unfold parse_message at h
  rcases hd : discard_until_message_start buffer with _ | ⟨b0, _ | ⟨b1, rest⟩⟩ <;>
    rw [hd] at h
  · cases h
  · cases h
  · rcases hcc : isCommandCode b1
    · simp only [hcc, Bool.false_eq_true, if_false] at h
      cases h
    · simp only [hcc, if_true] at h
      rcases hbs : bodySize b1 with _ | size <;> rw [hbs] at h <;> dsimp only at h
      · cases h
        exact ⟨hcc, hbs⟩
      · rcases hex : extract_body (b0 :: b1 :: rest) size with ⟨_ | body, buf2, exp⟩ <;>
          rw [hex] at h <;> dsimp only at h <;> cases h

theorem parse_messages_fuel_props :
    ∀ (fuel : Nat) (buffer : List Nat), buffer.length < fuel →
      (∀ ms buf e, parse_messages_fuel fuel buffer = .ok (ms, buf, e) → 1 ≤ e) ∧
      (∀ c, parse_messages_fuel fuel buffer = .error c →
        isCommandCode c = true ∧ bodySize c = none) := by
  intro fuel
  induction fuel with
  | zero => intro buffer h; omega
  | succ fuel ih =>
    intro buffer h
    constructor
    · intro ms buf e hok
      rw [parse_messages_fuel] at hok
      rcases hpm : parse_message buffer with c | ⟨o, buf1, e1⟩ <;>
        rw [hpm] at hok
      · cases hok
      · rcases o with _ | m <;> dsimp only at hok
        · cases hok
          exact parse_message_expected_pos hpm
        · have hlt := parse_message_shrinks hpm
          rcases hrec : parse_messages_fuel fuel buf1 with c | ⟨ms2, buf2, e2⟩ <;>
            rw [hrec] at hok <;> dsimp only at hok
          · cases hok
          · cases hok
            exact (ih _ (by omega)).1 _ _ _ hrec
    · intro c herr
      rw [parse_messages_fuel] at herr
      rcases hpm : parse_message buffer with c1 | ⟨o, buf1, e1⟩ <;>
        rw [hpm] at herr
      · cases herr
        exact parse_message_error_untabled hpm
      · rcases o with _ | m <;> dsimp only at herr
        · cases herr
        · have hlt := parse_message_shrinks hpm
          rcases hrec : parse_messages_fuel fuel buf1 with c1 | ⟨ms2, buf2, e2⟩ <;>
            rw [hrec] at herr <;> dsimp only at herr
          · cases herr
            exact (ih _ (by omega)).2 _ hrec
          · cases herr

theorem discard_append {J : List Nat} (l : List Nat)
    (hJ : ∀ b ∈ J, b ≠ MESSAGE_START_BYTE) :
    discard_until_message_start (J ++ MESSAGE_START_BYTE :: l) =
      MESSAGE_START_BYTE :: l := by
  induction J with
  | nil => simp [discard_until_message_start, List.dropWhile]
  | cons a J ih =>
    have ha : a ≠ MESSAGE_START_BYTE := hJ a (by simp)
    have hJ' : ∀ b ∈ J, b ≠ MESSAGE_START_BYTE := fun b hb => hJ b (by simp [hb])
    simp only [discard_until_message_start, List.cons_append,
      List.dropWhile_cons] at *
    simp only [bne_iff_ne, ne_eq, ha, not_false_eq_true, if_true]
    exact ih hJ'

theorem parse_message_encode (J body : List Nat) (code : Nat)
    (hJ : ∀ b ∈ J, b ≠ MESSAGE_START_BYTE)
    (hcode : isCommandCode code = true)
    (hsize : bodySize code = some body.length) :
    parse_message (J ++ format_message code body) =
      .ok (some ⟨code, body⟩, [], 2) := by
  unfold parse_message format_message
  rw [discard_append _ hJ]
  dsimp only
  rw [hcode, if_pos rfl, hsize]
  dsimp only
  have hex : extract_body (MESSAGE_START_BYTE :: code :: body) body.length =
      (some body, [], 0) := by
    unfold extract_body
    rw [if_neg (by simp)]
    simp
  rw [hex]
  dsimp only
  rfl

theorem parse_messages_fuel_nil {fuel : Nat} (h : 0 < fuel) :
    parse_messages_fuel fuel [] = .ok ([], [], 2) := by
  cases fuel with
  | zero => omega
  | succ fuel => rw [parse_messages_fuel]; rfl

theorem bodySize_isCommandCode {c : Nat} {L : Nat}
    (h : bodySize c = some L) : isCommandCode c = true := by
  unfold bodySize at h
  split at h <;> first | rfl | exact absurd h (by simp)

theorem xor_ff_mod (s : Nat) : (0xff ^^^ s) % 2 ^ 8 = 0xff ^^^ (s % 2 ^ 8) := by
  apply Nat.eq_of_testBit_eq
  intro i
  simp only [Nat.testBit_mod_two_pow, Nat.testBit_xor]
  by_cases hi : i < 8
  · simp [hi]
  · have h255 : Nat.testBit 0xff i = false := by
      apply Nat.testBit_eq_false_of_lt
      calc (0xff : Nat) < 2 ^ 8 := by norm_num
        _ ≤ 2 ^ i := Nat.pow_le_pow_right (by norm_num) (by omega)
    have hs : Nat.testBit (s % 2 ^ 8) i = false := by
      apply Nat.testBit_eq_false_of_lt
      calc s % 2 ^ 8 < 2 ^ 8 := Nat.mod_lt _ (by norm_num)
        _ ≤ 2 ^ i := Nat.pow_le_pow_right (by norm_num) (by omega)
    simp [hi, h255, hs]

set_option maxRecDepth 4000 in
theorem checksum_mod (s : Nat) : (s + ((0xff ^^^ s) + 1) % 256) % 256 = 0 := by
  have hb : ∀ l : Nat, l < 256 → 0xff ^^^ l = 255 - l := by decide
  have h2 : (0xff ^^^ s) % 256 = 255 - s % 256 := by
    have h256 : (256 : Nat) = 2 ^ 8 := by norm_num
    rw [h256, xor_ff_mod s, hb _ (by rw [← h256]; exact Nat.mod_lt _ (by norm_num))]
  have h3 : ((0xff ^^^ s) + 1) % 256 = (255 - s % 256 + 1) % 256 := by
    rw [Nat.add_mod, h2]
  rw [h3]
  omega

theorem project_scan_sorted (value : ℚ) :
    ∀ (rest : List (ℚ × ℚ)) (a0 : ℚ × ℚ),
      List.Pairwise (fun a b : ℚ × ℚ => a.1 ≤ b.1) (a0 :: rest) →
      project_scan value a0 rest =
        match (rest.filter (fun e => decide (e.1 ≤ value))).getLast? with
        | some e => e.2
        | none => a0.2 := by
  intro rest
  induction rest with
  | nil => intro a0 hp; rfl
  | cons xy rest ih =>
    intro a0 hp
    obtain ⟨x, y⟩ := xy
    have hp' : List.Pairwise (fun a b : ℚ × ℚ => a.1 ≤ b.1) ((x, y) :: rest) :=
      (List.pairwise_cons.mp hp).2
    rw [project_scan]
    by_cases hx : value < x
    · rw [if_pos hx]
      have hfil : ((x, y) :: rest).filter (fun e => decide (e.1 ≤ value)) = [] := by
        rw [List.filter_eq_nil_iff]
        intro e he
        rcases List.mem_cons.mp he with rfl | hmem
        · simpa using not_le.mpr hx
        · have hxe : (x : ℚ) ≤ e.1 := (List.pairwise_cons.mp hp').1 e hmem
          simp only [decide_eq_true_eq]
          exact not_le.mpr (lt_of_lt_of_le hx hxe)
      rw [hfil]
      rfl
    · rw [if_neg hx]
      have hx' : x ≤ value := not_lt.mp hx
      rw [ih (x, y) hp']
      have hfil : ((x, y) :: rest).filter (fun e => decide (e.1 ≤ value)) =
          (x, y) :: rest.filter (fun e => decide (e.1 ≤ value)) := by
        rw [List.filter_cons_of_pos]
        simpa using hx'
      rw [hfil]
      rcases hrf : rest.filter (fun e => decide (e.1 ≤ value)) with _ | ⟨f, fs⟩ <;>
        rw [hrf]
      · rfl
      · rw [List.getLast?_cons_cons]
        have hg : (f :: fs).getLast? = some ((f :: fs).getLast (by simp)) :=
          List.getLast?_eq_getLast _ (by simp)
        rw [hg]

/-!  Claim theorems. -/

/-- C1, counterexample: on the buffer `0x02 0x62` the parser recognizes the
command code `0x62` (`send_standard_or_extended_message`) but `BODY_SIZES`
has no entry for it, so `parse_messages` raises `KeyError` instead of
returning — the framer is not total as claimed. -/
theorem C1_counterexample :
    parse_messages [0x02, 0x62] = .error 0x62 ∧
    isCommandCode 0x62 = true ∧ bodySize 0x62 = none :=
  ⟨rfl, rfl, rfl⟩

/-- C1, amended: `parse_messages` terminates on every input (its recursion
is bounded by the buffer length), and either returns frames together with a
next-minimum-read-size hint that is at least 1, or raises `KeyError` — and
the latter happens exactly on a recognized command code with no tabled body
size. -/
theorem C1_thm : ∀ buffer : List Nat,
    (∀ ms buf e, parse_messages buffer = .ok (ms, buf, e) → 1 ≤ e) ∧
    (∀ c, parse_messages buffer = .error c →
      isCommandCode c = true ∧ bodySize c = none) :=
  fun buffer => parse_messages_fuel_props (buffer.length + 1) buffer (by omega)

/-- C1, witness: the hypotheses of `C1_thm` are satisfiable — a one-frame
buffer yields a hint of 2 ≥ 1, and the `0x62` buffer errors on a recognized
untabled code. -/
theorem C1_witness :
    (1 ≤ 2) ∧ (isCommandCode 0x62 = true ∧ bodySize 0x62 = none) :=
  ⟨(C1_thm [0x02, 0x55]).1 [⟨0x55, []⟩] [] 2 rfl,
   (C1_thm [0x02, 0x62]).2 0x62 rfl⟩

/-- C2: for every complete encoded frame whose command code has a tabled
body size and every junk prefix containing no `0x02`, parsing the junk
followed by the frame yields exactly that frame, consumes the whole buffer
(junk included), and requests 2 bytes next. -/
theorem C2_thm (J body : List Nat) (code : Nat)
    (hJ : ∀ b ∈ J, b ≠ MESSAGE_START_BYTE)
    (hcode : isCommandCode code = true)
    (hsize : bodySize code = some body.length) :
    parse_messages (J ++ format_message code body) =
      .ok ([⟨code, body⟩], [], 2) := by
  have hpm := parse_message_encode J body code hJ hcode hsize
  rw [parse_messages, parse_messages_fuel, hpm]
  dsimp only
  rw [parse_messages_fuel_nil
    (by simp only [List.length_append, format_message, List.length_cons]; omega)]

/-- C2, witness: two junk bytes, then a full `0x57` (all-link record
response) frame. -/
theorem C2_witness :
    parse_messages ([0xFF, 0x00] ++
        format_message 0x57 [0xE2, 0x01, 0xAA, 0xBB, 0xCC, 0x01, 0x02, 0x03]) =
      .ok ([⟨0x57, [0xE2, 0x01, 0xAA, 0xBB, 0xCC, 0x01, 0x02, 0x03]⟩], [], 2) :=
  C2_thm [0xFF, 0x00] _ 0x57 (by decide) rfl rfl

/-- C3, counterexample: a record body whose flags byte is exactly `0x40`
(bit 6 set) is parsed with the responder role, not the controller role the
claim requires. -/
theorem C3_counterexample :
    (parse_all_link_record_response
        [0x40, 0x01, 0xAA, 0xBB, 0xCC, 0x04, 0x05, 0x06]).role ≠
      AllLinkRole.controller ∧
    0x40 &&& 0x40 ≠ 0 := by
  constructor
  · intro h
    cases h
  · decide

/-- C3, amended: for every 8-byte body, `parse_all_link_record_response`
assigns the responder role exactly when bit 6 of the flags byte is set (the
enumeration maps the truthy flag bit to `responder = True`) and the
controller role otherwise; identity is bytes 2..4, group is byte 1, data is
bytes 5..7. -/
theorem C3_thm (value : List Nat) (h : value.length = 8) :
    ((parse_all_link_record_response value).role = AllLinkRole.responder ↔
      value.getD 0 0 &&& 0x40 ≠ 0) ∧
    (parse_all_link_record_response value).identity =
      [value.getD 2 0, value.getD 3 0, value.getD 4 0] ∧
    (parse_all_link_record_response value).group = value.getD 1 0 ∧
    (parse_all_link_record_response value).data =
      [value.getD 5 0, value.getD 6 0, value.getD 7 0] := by
  rcases value with _ | ⟨v0, _ | ⟨v1, _ | ⟨v2, _ | ⟨v3, _ | ⟨v4, _ | ⟨v5,
    _ | ⟨v6, _ | ⟨v7, tail⟩⟩⟩⟩⟩⟩⟩⟩ <;>
    simp only [List.length_cons, List.length_nil] at h <;> try omega
  have htail : tail = [] := List.eq_nil_of_length_eq_zero (by omega)
  subst htail
  refine ⟨?_, rfl, rfl, rfl⟩
  by_cases hbit : v0 &&& 0x40 = 0 <;>
    simp [parse_all_link_record_response, hbit]

/-- C3, witness: the flags byte `0x40` yields a responder-role record with
the identity, group and data fields at the claimed byte positions. -/
theorem C3_witness :
    ((parse_all_link_record_response
        [0x40, 0x01, 0xAA, 0xBB, 0xCC, 0x04, 0x05, 0x06]).role =
        AllLinkRole.responder ↔
      ([0x40, 0x01, 0xAA, 0xBB, 0xCC, 0x04, 0x05, 0x06].getD 0 0 &&& 0x40 ≠ 0)) ∧
    (parse_all_link_record_response
        [0x40, 0x01, 0xAA, 0xBB, 0xCC, 0x04, 0x05, 0x06]).identity =
      [0xAA, 0xBB, 0xCC] ∧
    (parse_all_link_record_response
        [0x40, 0x01, 0xAA, 0xBB, 0xCC, 0x04, 0x05, 0x06]).group = 0x01 ∧
    (parse_all_link_record_response
        [0x40, 0x01, 0xAA, 0xBB, 0xCC, 0x04, 0x05, 0x06]).data =
      [0x04, 0x05, 0x06] :=
  C3_thm [0x40, 0x01, 0xAA, 0xBB, 0xCC, 0x04, 0x05, 0x06] rfl

/-- C4, counterexample: `light_on(01.02.03, 50.0, false)` does not emit the
claimed bytes `02 62 01 02 03 0F 11 7F`: the source passes `hops_left=2`
(flags byte `0x0B`, not `0x0F`) and `round(127.5)` is 128 = `0x80` under
round-half-to-even, not `0x7F`. -/
theorem C4_counterexample :
    light_on_wire_bytes [0x4A, 0x3B, 0x2C] [0x01, 0x02, 0x03] 50 false ≠
      [0x02, 0x62, 0x01, 0x02, 0x03, 0x0F, 0x11, 0x7F] := by
  have hval : light_on_wire_bytes [0x4A, 0x3B, 0x2C] [0x01, 0x02, 0x03] 50 false =
      [0x02, 0x62, 0x01, 0x02, 0x03, 0x0B, 0x11, 0x80] := rfl
  rw [hval]
  decide

/-- C4, amended: `light_on` with identity 01.02.03, level 50.0 and
instant=false emits `02 62 01 02 03 0B 11 80`: command 0x62 to target
01.02.03, flags byte 0x0B (no flag bits, hops_left 2 and max_hops 3), command
byte 0x11 and on-level byte 0x80 = round(127.5) — for any PLM identity, which
does not appear in the emitted body. -/
theorem C4_thm (plm_identity : List Nat) :
    light_on_wire_bytes plm_identity [0x01, 0x02, 0x03] 50 false =
      [0x02, 0x62, 0x01, 0x02, 0x03, 0x0B, 0x11, 0x80] := rfl

/-- C5, counterexample: when the only (hence first) matching frame in the
subscriber stream carries a NAK epilogue (`0x15`), `write_read` still returns
it; `check_ack_or_nak` — which the callers, not `write_read`, invoke — is
what raises `CommandFailure` on it. -/
theorem C5_counterexample :
    write_read_model (some [0x62])
        [⟨0x62, [0x01, 0x02, 0x03, 0x0B, 0x11, 0x80, 0x15]⟩] =
      some ⟨0x62, [0x01, 0x02, 0x03, 0x0B, 0x11, 0x80, 0x15]⟩ ∧
    check_ack_or_nak ⟨0x62, [0x01, 0x02, 0x03, 0x0B, 0x11, 0x80, 0x15]⟩ =
      some (.commandFailure 0x62) :=
  ⟨rfl, rfl⟩

/-- C5, amended: `write_read` returns the first frame whose command code
passes the subscription filter, regardless of its ACK/NAK epilogue byte; the
retry branch only fires for `MessageFailure` queue items, which the parser
never produces. -/
theorem C5_thm (codes : Option (List Nat)) (pre rest : List IncomingMessage)
    (m : IncomingMessage)
    (hpre : ∀ x ∈ pre, read_one_filter codes x = false)
    (hm : read_one_filter codes m = true) :
    write_read_model codes (pre ++ m :: rest) = some m := by
  rw [write_read_model, List.filter_append]
  have hnil : pre.filter (read_one_filter codes) = [] := by
    rw [List.filter_eq_nil_iff]
    intro a ha
    simp [hpre a ha]
  rw [hnil, List.nil_append, List.filter_cons_of_pos hm]
  rfl

/-- C5, witness: a non-matching frame followed by a NAK-carrying matching
frame — `write_read` hands the NAK frame to its caller. -/
theorem C5_witness :
    write_read_model (some [0x62])
        ([⟨0x50, [0x00]⟩] ++ ⟨0x62, [0x15]⟩ :: []) = some ⟨0x62, [0x15]⟩ :=
  C5_thm (some [0x62]) [⟨0x50, [0x00]⟩] [] ⟨0x62, [0x15]⟩ (by decide) (by decide)

/-- C6: for 2-byte command bytes and 14-byte user data, `_checksum` keeps
the first 13 payload bytes and sets the 14th to
`((0xFF XOR s) + 1) mod 256` where `s` sums the command bytes and the first
13 payload bytes; consequently the command bytes plus the result sum to
0 mod 256. -/
theorem C6_thm (command_bytes user_data : List Nat)
    (_hc : command_bytes.length = 2) (hu : user_data.length = 14) :
    checksum command_bytes user_data =
      user_data.take 13 ++
        [((0xff ^^^ (command_bytes ++ user_data.take 13).sum) + 1) % 256] ∧
    (command_bytes.sum + (checksum command_bytes user_data).sum) % 256 = 0 := by
  have hdl : user_data.dropLast = user_data.take 13 := by
    rw [List.dropLast_eq_take, hu]
  have hand : ∀ n : Nat, n &&& 0xff = n % 256 := by
    intro n
    have h := Nat.and_pow_two_sub_one_eq_mod n 8
    norm_num at h
    exact h
  constructor
  · rw [checksum, hdl, hand]
  · rw [checksum, hdl, hand, List.sum_append, List.sum_cons, List.sum_nil,
      List.sum_append]
    rw [Nat.add_zero, ← Nat.add_assoc]
    exact checksum_mod (command_bytes.sum + (user_data.take 13).sum)

/-- C6, witness: the unlinking payload — command bytes `0A 01` over thirteen
zero bytes gets checksum byte `0xF5`, and the sums cancel mod 256. -/
theorem C6_witness :
    (checksum [0x0A, 0x01] (List.replicate 14 0) =
      (List.replicate 14 0).take 13 ++
        [((0xff ^^^ ([0x0A, 0x01] ++ (List.replicate 14 0).take 13).sum) + 1) % 256]) ∧
    ([0x0A, 0x01].sum + (checksum [0x0A, 0x01] (List.replicate 14 0)).sum) % 256 = 0 :=
  C6_thm [0x0A, 0x01] (List.replicate 14 0) rfl rfl

/-- C7, counterexample: `RAMP_RATES` is sorted ascending by key, yet at
input 0.15 `project_onto` returns 0x1F = 31 — the value of the entry *before*
the first key strictly greater than the input — while the claim's reading
(`spec_project_onto`) picks that first greater key's value 0x1E = 30. -/
theorem C7_counterexample :
    List.Pairwise (fun a b : ℚ × ℚ => a.1 ≤ b.1) RAMP_RATES ∧
    project_onto (mkRat 3 20) RAMP_RATES false = some 31 ∧
    spec_project_onto (mkRat 3 20) RAMP_RATES = some 30 :=
  ⟨by decide, rfl, rfl⟩

/-- C7, amended: on every table sorted ascending by key, `project_onto`
returns the value of the *last* entry whose key is at most the input (the
entry immediately preceding the first strictly greater key), falling back to
the first entry's value when the input is below every key — the
`floor_project_onto` reading, not the claimed first-greater-key reading. -/
theorem C7_thm (value : ℚ) (array : List (ℚ × ℚ))
    (hsorted : List.Pairwise (fun a b : ℚ × ℚ => a.1 ≤ b.1) array) :
    project_onto value array false = floor_project_onto value array := by
  cases array with
  | nil => rfl
  | cons a0 rest =>
    rw [project_onto]
    simp only [Bool.false_eq_true, if_false]
    rw [project_scan_sorted value rest a0 hsorted, floor_project_onto]
    by_cases h0 : a0.1 ≤ value
    · have hfil : (a0 :: rest).filter (fun e => decide (e.1 ≤ value)) =
          a0 :: rest.filter (fun e => decide (e.1 ≤ value)) := by
        rw [List.filter_cons_of_pos]
        simpa using h0
      rw [hfil]
      rcases hrf : rest.filter (fun e => decide (e.1 ≤ value)) with _ | ⟨f, fs⟩ <;>
        rw [hrf]
      · rfl
      · rw [List.getLast?_cons_cons]
        have hg : (f :: fs).getLast? = some ((f :: fs).getLast (by simp)) :=
          List.getLast?_eq_getLast _ (by simp)
        rw [hg]
    · have hrest : rest.filter (fun e => decide (e.1 ≤ value)) = [] := by
        rw [List.filter_eq_nil_iff]
        intro e he
        have hxe : a0.1 ≤ e.1 := (List.pairwise_cons.mp hsorted).1 e he
        simp only [decide_eq_true_eq]
        intro hle
        exact h0 (le_trans hxe hle)
      have hfil : (a0 :: rest).filter (fun e => decide (e.1 ≤ value)) = [] := by
        rw [List.filter_cons_of_neg, hrest]
        simpa using h0
      rw [hfil, hrest]
      rfl

/-- C7, witness: on the 31-entry ramp-rate table at input 0.15 the
projection coincides with the floor reading. -/
theorem C7_witness :
    project_onto (mkRat 3 20) RAMP_RATES false =
      floor_project_onto (mkRat 3 20) RAMP_RATES :=
  C7_thm (mkRat 3 20) RAMP_RATES (by decide)

/-- C8, counterexample: the byte-level roundtrip fails at b = 1:
`on_level_to_percent(1)` is 0 (round(100/255) = 0), and
`on_level_from_percent(0)` is 0, not 1. -/
theorem C8_counterexample :
    on_level_from_percent (on_level_to_percent 1 : ℤ) ≠ 1 := by decide

set_option maxRecDepth 10000 in
/-- C8, amended: the roundtrip holds in the percent direction — for every
integer percent p in 0..100, `on_level_to_percent(on_level_from_percent(p))`
equals p (the byte direction cannot hold: 256 bytes map onto 101 percent
values) — and the ramp-rate conversions are idempotent on every rate byte of
the 31-entry table, as claimed. -/
theorem C8_thm :
    (∀ p : Nat, p < 101 →
      on_level_to_percent (on_level_from_percent p : ℤ) = p) ∧
    ∀ r ∈ RAMP_RATES.map Prod.snd,
      (ramp_rate_to_seconds r).bind ramp_rate_from_seconds = some r := by
  constructor <;> decide

/-- C8, witness: the percent roundtrip at 42 and the ramp roundtrip at rate
byte 0x1F. -/
theorem C8_witness :
    on_level_to_percent (on_level_from_percent 42 : ℤ) = 42 ∧
    (ramp_rate_to_seconds 0x1F).bind ramp_rate_from_seconds = some 0x1F :=
  ⟨C8_thm.1 42 (by decide), C8_thm.2 0x1F (by decide)⟩

/-- C9: `remote_enter_unlinking` constructs its message with command bytes
`[0x0A, group]` but — unlike its sibling `remote_enter_linking`, whose
message this theorem also evaluates — passes an empty flag set and empty
user data, discarding the checksummed payload it just computed: the message
sent is standard, not the claimed extended one. -/
theorem C9_thm :
    (remote_enter_unlinking_message [0x4A, 0x3B, 0x2C] [0x01, 0x02, 0x03]
        0x01).flags = [] ∧
    (remote_enter_unlinking_message [0x4A, 0x3B, 0x2C] [0x01, 0x02, 0x03]
        0x01).user_data = [] ∧
    (remote_enter_unlinking_message [0x4A, 0x3B, 0x2C] [0x01, 0x02, 0x03]
        0x01).command_bytes = [0x0A, 0x01] ∧
    (remote_enter_linking_message [0x4A, 0x3B, 0x2C] [0x01, 0x02, 0x03]
        0x01).flags = [InsteonMessageFlag.extended] ∧
    (remote_enter_linking_message [0x4A, 0x3B, 0x2C] [0x01, 0x02, 0x03]
        0x01).user_data = List.replicate 13 0 ++ [0xF6] :=
  ⟨rfl, rfl, rfl, rfl, rfl⟩

/-- C10: `parse_message` never consumes the bytes of an incomplete frame —
when the post-discard buffer opens a tabled frame but holds fewer than
`L + 2` bytes, the call returns no message, leaves the post-discard buffer
intact, and reports exactly the missing byte count; and every call leaves a
suffix of the original buffer (bytes are only ever removed from the
front). -/
theorem C10_thm :
    (∀ (buffer : List Nat) (b0 b1 : Nat) (rest : List Nat) (L : Nat),
      discard_until_message_start buffer = b0 :: b1 :: rest →
      bodySize b1 = some L →
      (b0 :: b1 :: rest).length < L + 2 →
      parse_message buffer =
        .ok (none, b0 :: b1 :: rest, L + 2 - (b0 :: b1 :: rest).length)) ∧
    (∀ (buffer : List Nat) (r : Option IncomingMessage × List Nat × Nat),
      parse_message buffer = .ok r → r.2.1 <:+ buffer) := by
  constructor
  · intro buffer b0 b1 rest L hd hL hshort
    have hcc := bodySize_isCommandCode hL
    unfold parse_message
    rw [hd]
    dsimp only
    rw [hcc, if_pos rfl, hL]
    dsimp only
    have hex : extract_body (b0 :: b1 :: rest) L =
        (none, b0 :: b1 :: rest, L + 2 - (b0 :: b1 :: rest).length) := by
      unfold extract_body
      rw [if_pos hshort]
    rw [hex]
  · intro buffer r h
    have hsuf : discard_until_message_start buffer <:+ buffer :=
      List.dropWhile_suffix _
    unfold parse_message at h
    rcases hd : discard_until_message_start buffer with _ | ⟨b0, _ | ⟨b1, rest⟩⟩ <;>
      rw [hd] at h <;> rw [hd] at hsuf
    · cases h
      exact List.nil_suffix
    · cases h
      exact hsuf
    · rcases hcc : isCommandCode b1
      · simp only [hcc, Bool.false_eq_true, if_false] at h
        cases h
        exact List.IsSuffix.trans
          ((List.suffix_cons b1 rest).trans (List.suffix_cons b0 (b1 :: rest))) hsuf
      · simp only [hcc, if_true] at h
        rcases hbs : bodySize b1 with _ | size <;> rw [hbs] at h <;> dsimp only at h
        · cases h
        · rcases hex : extract_body (b0 :: b1 :: rest) size with ⟨ob, buf2, exp⟩
          rw [hex] at h
          rcases ob with _ | body <;> dsimp only at h <;> cases h
          · obtain ⟨hbuf, -, -⟩ := extract_body_none hex
            exact hbuf ▸ hsuf
          · obtain ⟨-, hbuf, -⟩ := extract_body_some hex
            exact hbuf ▸ (List.IsSuffix.trans (List.drop_suffix _ _) hsuf)

/-- C10, witness: a junk byte, then the first three bytes of a
`standard_message_received` frame — the parser keeps them, asks for the
missing 8 bytes, and the kept buffer is a suffix of the input. -/
theorem C10_witness :
    parse_message [0xFF, 0x02, 0x50, 0x0a] = .ok (none, [0x02, 0x50, 0x0a], 8) ∧
    [0x02, 0x50, 0x0a] <:+ [0xFF, 0x02, 0x50, 0x0a] :=
  ⟨C10_thm.1 [0xFF, 0x02, 0x50, 0x0a] 0x02 0x50 [0x0a] 9 rfl rfl (by decide),
   C10_thm.2 [0xFF, 0x02, 0x50, 0x0a] (none, [0x02, 0x50, 0x0a], 8)
     (C10_thm.1 [0xFF, 0x02, 0x50, 0x0a] 0x02 0x50 [0x0a] 9 rfl rfl (by decide))⟩

end Pysteon
